import Mathlib

/-!
Shallow embedding of `build_tools/lint/generate_compile_commands.py`.

The script converts the JSON output of a build-system action query into a
compilation database: for each action it filters a denylist of arguments,
records the last argument ending in ".cc" as the file, and serializes the
resulting records as a JSON array of objects.
-/

namespace GenerateCompileCommands

/-- Embeds the module constant `_DISALLOWED_ARGS` (a frozenset with a single
element). -/
def DISALLOWED_ARGS : List String := ["-fno-canonical-system-headers"]

/-- Embeds the Python expression `s.endswith(suffix)`: the character sequence
of `suffix` is a suffix of the character sequence of `s`. -/
def pyEndswith (s suffix : String) : Bool :=
  suffix.data.isSuffixOf s.data

/-- Embeds the dataclass `ClangTidyCommand` with fields `file` (a string or
`None`) and `arguments` (a list of strings). -/
structure ClangTidyCommand where
  file : Option String
  arguments : List String
  deriving DecidableEq

/-- Embeds the loop body of `ClangTidyCommand.from_args_list`: iterate the
remaining arguments carrying the mutable state `cc_file` and `filtered_args`;
a denylisted argument is skipped, any other argument ending in ".cc"
overwrites `cc_file`, and every non-denylisted argument is appended. -/
def fromArgsLoop :
    List String → Option String → List String → Option String × List String
  | [], cc_file, filtered_args => (cc_file, filtered_args)
  | arg :: rest, cc_file, filtered_args =>
    if arg ∈ DISALLOWED_ARGS then
      fromArgsLoop rest cc_file filtered_args
    else
      fromArgsLoop rest
        (if pyEndswith arg ".cc" then some arg else cc_file)
        (filtered_args ++ [arg])

/-- Embeds the classmethod `ClangTidyCommand.from_args_list`: run the loop
starting from `cc_file = None` and `filtered_args = []` and package the
result. -/
def ClangTidyCommand.from_args_list (args_list : List String) : ClangTidyCommand :=
  let r := fromArgsLoop args_list none []
  ⟨r.1, r.2⟩

/-- JSON values as produced by `json.loads`: null, booleans, numbers, strings,
arrays and objects (dicts with string keys; `json.loads` yields unique keys). -/
inductive Json where
  | null : Json
  | bool : Bool → Json
  | num : Int → Json
  | str : String → Json
  | arr : List Json → Json
  | obj : List (String × Json) → Json

/-- Embeds the Python subscription `v[k]` for a string key `k`: succeeds with
the stored value when `v` is a dict holding key `k`; a missing key (KeyError)
or a non-dict receiver (TypeError) is a failure. -/
def Json.getKey : Json → String → Option Json
  | .obj fields, k => fields.lookup k
  | _, _ => none

/-- Embeds the Python iteration `for x in v` over a JSON-decoded value: a list
yields its elements, a string yields its one-character substrings, a dict
yields its keys; null, booleans and numbers are not iterable (TypeError). -/
def Json.pyIter : Json → Option (List Json)
  | .arr elems => some elems
  | .str s => some (s.data.map fun c => .str (String.mk [c]))
  | .obj fields => some (fields.map fun p => .str p.1)
  | _ => none

/-- Projects a JSON string; any other value is a failure (in the script a
non-string argument fails at `arg.endswith`, an AttributeError or TypeError). -/
def Json.asStr : Json → Option String
  | .str s => some s
  | _ => none

/-- Checks every iterated element is a string, in order, failing on the first
that is not, as the `for arg in args_list` loop does dynamically. -/
def strListOfJson : List Json → Option (List String)
  | [] => some []
  | e :: rest => (e.asStr).bind fun s => (strListOfJson rest).map (s :: ·)

/-- Embeds the dynamic application `ClangTidyCommand.from_args_list(v)` to the
JSON value stored under "arguments": the value must be iterable and each
iterated element a string, else the call raises. -/
def from_args_json (v : Json) : Option ClangTidyCommand :=
  v.pyIter.bind fun elems =>
    (strListOfJson elems).map ClangTidyCommand.from_args_list

/-- Embeds the `for action in actions` loop of `extract_compile_commands`:
each action is subscripted at "arguments", converted, and appended; the first
raising action aborts the whole run. -/
def extractLoop : List Json → Option (List ClangTidyCommand)
  | [] => some []
  | action :: rest =>
    ((action.getKey "arguments").bind from_args_json).bind fun command =>
      (extractLoop rest).map fun commands => command :: commands

/-- Embeds `extract_compile_commands`: subscript the parsed document at
"actions", iterate it, and convert each action in order. -/
def extract_compile_commands (parsed_aquery_output : Json) :
    Option (List ClangTidyCommand) :=
  (parsed_aquery_output.getKey "actions").bind fun actions =>
    actions.pyIter.bind fun acts => extractLoop acts

/-- Renders the optional `file` field as JSON: Python `None` serializes as
JSON null. -/
def optFileJson : Option String → Json
  | none => .null
  | some f => .str f

/-- Embeds the method `ClangTidyCommand.to_dumpable_json`: a dict literal with
the keys "directory", "file", "arguments" in that insertion order. -/
def ClangTidyCommand.to_dumpable_json (c : ClangTidyCommand) (directory : String) : Json :=
  .obj
    [("directory", .str directory),
     ("file", optFileJson c.file),
     ("arguments", .arr (c.arguments.map .str))]

/-- Embeds the list comprehension passed to `json.dump` in `main`: one dumped
object per command, in order, sharing a single directory string. -/
def dump_compile_commands (commands : List ClangTidyCommand) (directory : String) : Json :=
  .arr (commands.map fun command => command.to_dumpable_json directory)

/-- Observes the key sequence of a JSON object. -/
def Json.objKeys : Json → Option (List String)
  | .obj fields => some (fields.map Prod.fst)
  | _ => none

/-- Observes the length of a JSON array. -/
def Json.arrLen : Json → Option Nat
  | .arr elems => some elems.length
  | _ => none

/-- Observes the element of a JSON array at an index. -/
def Json.arrGet : Json → Nat → Option Json
  | .arr elems, i => elems[i]?
  | _, _ => none

/-- The predicate deciding whether an argument survives the denylist filter. -/
def keptArg (a : String) : Bool := decide (a ∉ DISALLOWED_ARGS)

/-- The predicate deciding whether an argument is eligible to be recorded as
the file: it survives the denylist and ends in ".cc". -/
def fileCandidate (a : String) : Bool := keptArg a && pyEndswith a ".cc"

/-- A concrete action carrying an extra field next to its arguments, as the
action-query output of the build tool does. -/
def sampleActionA : Json :=
  Json.obj
    [("arguments", Json.arr [Json.str "clang", Json.str "-c", Json.str "a.cc"]),
     ("mnemonic", Json.str "CppCompile")]

/-- A concrete action with an empty argument vector. -/
def sampleActionB : Json :=
  Json.obj [("arguments", Json.arr [])]

/-- A concrete action with the same arguments as `sampleActionA` but a
different extra field. -/
def sampleActionA2 : Json :=
  Json.obj
    [("arguments", Json.arr [Json.str "clang", Json.str "-c", Json.str "a.cc"]),
     ("environmentVariables", Json.null)]

/-- A concrete action with the same arguments as `sampleActionB` but an extra
field. -/
def sampleActionB2 : Json :=
  Json.obj [("arguments", Json.arr []), ("targetId", Json.num 7)]

/-- A concrete parsed document with two actions. -/
def sampleDoc1 : Json :=
  Json.obj [("actions", Json.arr [sampleActionA, sampleActionB])]

/-- A concrete parsed document whose actions agree with those of `sampleDoc1`
on their arguments but differ on extra fields, with an extra top-level
field as well. -/
def sampleDoc2 : Json :=
  Json.obj
    [("actions", Json.arr [sampleActionA2, sampleActionB2]),
     ("version", Json.num 2)]

/-- The `filtered_args` component of the loop is the accumulator followed by
the denylist-filtered remaining arguments. -/
theorem fromArgsLoop_snd (l : List String) (c : Option String) (f : List String) :
    (fromArgsLoop l c f).2 = f ++ l.filter keptArg := by
  induction l generalizing c f with
  | nil => simp [fromArgsLoop]
  | cons a rest ih =>
    by_cases h : a ∈ DISALLOWED_ARGS
    · simp [fromArgsLoop, h, ih, keptArg, List.filter_cons]
    · simp [fromArgsLoop, h, ih, keptArg, List.filter_cons]

/-- The `cc_file` component of the loop is the last file candidate among the
remaining arguments, or the accumulator when there is none. -/
theorem fromArgsLoop_fst (l : List String) (c : Option String) (f : List String) :
    (fromArgsLoop l c f).1 = ((l.filter fileCandidate).getLast?).or c := by
  induction l generalizing c f with
  | nil => simp [fromArgsLoop]
  | cons a rest ih =>
    by_cases h : a ∈ DISALLOWED_ARGS
    · have hfc : fileCandidate a = false := by
        simp [fileCandidate, keptArg, h]
      simp [fromArgsLoop, h, ih, List.filter_cons, hfc]
    · by_cases hcc : pyEndswith a ".cc"
      · have hfc : fileCandidate a = true := by
          simp [fileCandidate, keptArg, h, hcc]
        have hstep : fromArgsLoop (a :: rest) c f = fromArgsLoop rest (some a) (f ++ [a]) := by
          simp [fromArgsLoop, h, hcc]
        have hfilter : (a :: rest).filter fileCandidate = [a] ++ rest.filter fileCandidate := by
          simp [List.filter_cons, hfc]
        rw [hstep, ih, hfilter, List.getLast?_append, Option.or_assoc]
        simp
      · have hfc : fileCandidate a = false := by
          simp [fileCandidate, keptArg, h, hcc]
        simp [fromArgsLoop, h, hcc, ih, List.filter_cons, hfc]

/-- The `arguments` field of a constructed command is the denylist filter of
the input argument list. -/
theorem from_args_list_arguments_eq (args_list : List String) :
    (ClangTidyCommand.from_args_list args_list).arguments = args_list.filter keptArg := by
  simpa [ClangTidyCommand.from_args_list] using fromArgsLoop_snd args_list none []

/-- The `file` field of a constructed command is the last file candidate of
the input argument list, when one exists. -/
theorem from_args_list_file_eq (args_list : List String) :
    (ClangTidyCommand.from_args_list args_list).file =
      (args_list.filter fileCandidate).getLast? := by
  have h := fromArgsLoop_fst args_list none []
  simpa [ClangTidyCommand.from_args_list, Option.or_none] using h

/-- C1: for every action, the emitted arguments are exactly the original
arguments with the denylisted entries removed: the result equals the
denylist filter of the input (so kept entries keep their relative order,
nothing is added, duplicated, dropped for another reason, or reordered),
and in particular it is a sublist of the input. -/
theorem emitted_arguments_are_denylist_filter (args_list : List String) :
    (ClangTidyCommand.from_args_list args_list).arguments =
      args_list.filter (fun a => decide (a ∉ DISALLOWED_ARGS)) ∧
    List.Sublist (ClangTidyCommand.from_args_list args_list).arguments args_list := by
  refine ⟨from_args_list_arguments_eq args_list, ?_⟩
  rw [from_args_list_arguments_eq]
  exact List.filter_sublist _

/-- C3: when an action has two or more non-denylisted arguments ending in
".cc", the emitted file is the last such argument in scan order. -/
theorem emitted_file_is_last_source_candidate (args_list : List String)
    (h : 2 ≤ (args_list.filter fileCandidate).length) :
    (ClangTidyCommand.from_args_list args_list).file =
      (args_list.filter fileCandidate).getLast? :=
  from_args_list_file_eq args_list

/-- Witness for C3 at a concrete action with two ".cc" arguments. -/
theorem emitted_file_is_last_source_candidate_witness :
    2 ≤ ((["clang", "a.cc", "b.cc"].filter fileCandidate).length) ∧
    (ClangTidyCommand.from_args_list ["clang", "a.cc", "b.cc"]).file =
      (["clang", "a.cc", "b.cc"].filter fileCandidate).getLast? :=
  ⟨by decide, emitted_file_is_last_source_candidate ["clang", "a.cc", "b.cc"] (by decide)⟩

/-- C4 counterexample: on the action ["a.cc", "b.cc"] the first recorded file
"a.cc" does not persist; the later matching argument "b.cc" replaces it, so a
recorded file is not left unchanged by later suffix matches. -/
theorem first_match_does_not_persist :
    (ClangTidyCommand.from_args_list ["a.cc", "b.cc"]).file = some "b.cc" ∧
    ¬ (ClangTidyCommand.from_args_list ["a.cc", "b.cc"]).file = some "a.cc" := by
  decide

/-- C4 amended: a non-denylisted argument ending in ".cc" is always recorded
when scanned, overwriting any previously recorded file, so appending such an
argument makes it the emitted file regardless of earlier matches. -/
theorem later_source_match_overwrites_file (args_list : List String) (a : String)
    (hd : a ∉ DISALLOWED_ARGS) (hcc : pyEndswith a ".cc" = true) :
    (ClangTidyCommand.from_args_list (args_list ++ [a])).file = some a := by
  have hfc : fileCandidate a = true := by
    simp [fileCandidate, keptArg, hd, hcc]
  rw [from_args_list_file_eq, List.filter_append]
  simp [List.filter_cons, hfc, List.getLast?_append]

/-- Witness for the amended C4 at a concrete action with an earlier match. -/
theorem later_source_match_overwrites_file_witness :
    "y.cc" ∉ DISALLOWED_ARGS ∧ pyEndswith "y.cc" ".cc" = true ∧
    (ClangTidyCommand.from_args_list (["x.cc"] ++ ["y.cc"])).file = some "y.cc" :=
  ⟨by decide, by decide,
    later_source_match_overwrites_file ["x.cc"] "y.cc" (by decide) (by decide)⟩

/-- C5: an action none of whose arguments end in ".cc" — in particular the
action with no arguments at all — yields a command with no file, and the
empty action yields the command with no file and empty arguments rather
than an error. -/
theorem no_source_suffix_yields_no_file (args_list : List String)
    (h : ∀ a ∈ args_list, pyEndswith a ".cc" = false) :
    (ClangTidyCommand.from_args_list args_list).file = none ∧
    ClangTidyCommand.from_args_list [] = ⟨none, []⟩ := by
  refine ⟨?_, rfl⟩
  rw [from_args_list_file_eq]
  have hnil : args_list.filter fileCandidate = [] := by
    refine List.filter_eq_nil_iff.mpr fun a ha => ?_
    simp [fileCandidate, h a ha]
  rw [hnil]
  rfl

/-- Witness for C5 at a concrete action without source-suffixed arguments. -/
theorem no_source_suffix_yields_no_file_witness :
    (∀ a ∈ ["clang", "-c", "foo.h"], pyEndswith a ".cc" = false) ∧
    (ClangTidyCommand.from_args_list ["clang", "-c", "foo.h"]).file = none :=
  ⟨by decide, (no_source_suffix_yields_no_file ["clang", "-c", "foo.h"] (by decide)).1⟩

/-- A list of JSON strings converts back to the underlying string list. -/
theorem strListOfJson_map_str (l : List String) :
    strListOfJson (l.map Json.str) = some l := by
  induction l with
  | nil => rfl
  | cons a rest ih => simp [strListOfJson, Json.asStr, ih]

/-- Applying the converter to a JSON array of strings succeeds and runs
`from_args_list` on the underlying strings. -/
theorem from_args_json_map_str (l : List String) :
    from_args_json (Json.arr (l.map Json.str)) =
      some (ClangTidyCommand.from_args_list l) := by
  simp [from_args_json, Json.pyIter, strListOfJson_map_str]

/-- On a well-formed action list the extraction loop succeeds and emits one
command per action, each obtained by `from_args_list`. -/
theorem extractLoop_map (acts : List Json) (argss : List (List String))
    (hlen : acts.length = argss.length)
    (hargs : ∀ i (h : i < acts.length) (h' : i < argss.length),
      (acts.get ⟨i, h⟩).getKey "arguments" =
        some (Json.arr ((argss.get ⟨i, h'⟩).map Json.str))) :
    extractLoop acts = some (argss.map ClangTidyCommand.from_args_list) := by
  induction acts generalizing argss with
  | nil =>
    cases argss with
    | nil => rfl
    | cons b bs => simp at hlen
  | cons a rest ih =>
    cases argss with
    | nil => simp at hlen
    | cons b bs =>
      have h0 := hargs 0 (by simp) (by simp)
      have hrest : extractLoop rest = some (bs.map ClangTidyCommand.from_args_list) := by
        refine ih bs (by simpa using hlen) ?_
        intro i h h'
        simpa using hargs (i + 1) (by simpa using Nat.succ_lt_succ h)
          (by simpa using Nat.succ_lt_succ h')
      simp only [List.get_eq_getElem, List.getElem_cons_zero] at h0
      simp [extractLoop, h0, from_args_json_map_str, hrest]

/-- C2: on a well-formed input — the actions field holds a sequence of
actions and each action's arguments field holds a sequence of strings —
extraction succeeds and emits exactly one command per action, in input
order (the i-th command converts the i-th action), and in particular an
empty action sequence yields the empty command list rather than an error. -/
theorem one_command_per_action (j : Json) (acts : List Json)
    (argss : List (List String))
    (hacts : j.getKey "actions" = some (Json.arr acts))
    (hlen : acts.length = argss.length)
    (hargs : ∀ i (h : i < acts.length) (h' : i < argss.length),
      (acts.get ⟨i, h⟩).getKey "arguments" =
        some (Json.arr ((argss.get ⟨i, h'⟩).map Json.str))) :
    extract_compile_commands j =
      some (argss.map ClangTidyCommand.from_args_list) ∧
    (argss.map ClangTidyCommand.from_args_list).length = acts.length := by
  have hloop := extractLoop_map acts argss hlen hargs
  refine ⟨?_, by simp [hlen]⟩
  simp [extract_compile_commands, hacts, Json.pyIter, hloop]

/-- Witness for C2 at a concrete two-action document. -/
theorem one_command_per_action_witness :
    sampleDoc1.getKey "actions" =
      some (Json.arr [sampleActionA, sampleActionB]) ∧
    extract_compile_commands sampleDoc1 =
      some ([["clang", "-c", "a.cc"], []].map ClangTidyCommand.from_args_list) ∧
    ([["clang", "-c", "a.cc"], ([] : List String)].map
      ClangTidyCommand.from_args_list).length = 2 := by
  have h := one_command_per_action sampleDoc1 [sampleActionA, sampleActionB]
    [["clang", "-c", "a.cc"], []] rfl rfl ?_
  · exact ⟨rfl, h.1, h.2⟩
  · intro i h h'
    simp only [List.length_cons, List.length_nil] at h
    interval_cases i
    · rfl
    · rfl

/-- The extraction loop depends on each action only through the value stored
under its arguments key. -/
theorem extractLoop_congr (acts₁ acts₂ : List Json)
    (hlen : acts₁.length = acts₂.length)
    (hargs : ∀ i (ha : i < acts₁.length) (hb : i < acts₂.length),
      (acts₁.get ⟨i, ha⟩).getKey "arguments" =
        (acts₂.get ⟨i, hb⟩).getKey "arguments") :
    extractLoop acts₁ = extractLoop acts₂ := by
  induction acts₁ generalizing acts₂ with
  | nil =>
    cases acts₂ with
    | nil => rfl
    | cons b bs => simp at hlen
  | cons a rest ih =>
    cases acts₂ with
    | nil => simp at hlen
    | cons b bs =>
      have h0 := hargs 0 (by simp) (by simp)
      have hrest : extractLoop rest = extractLoop bs := by
        refine ih bs (by simpa using hlen) ?_
        intro i ha hb
        simpa using hargs (i + 1) (by simpa using Nat.succ_lt_succ ha)
          (by simpa using Nat.succ_lt_succ hb)
      simp only [List.get_eq_getElem, List.getElem_cons_zero] at h0
      simp [extractLoop, h0, hrest]

/-- C9: the output depends only on each action's arguments value: two parsed
documents whose action sequences have the same length and pairwise equal
arguments values extract to identical command lists, whatever other fields
the documents or actions carry. -/
theorem output_depends_only_on_arguments (j₁ j₂ : Json) (acts₁ acts₂ : List Json)
    (h₁ : j₁.getKey "actions" = some (Json.arr acts₁))
    (h₂ : j₂.getKey "actions" = some (Json.arr acts₂))
    (hlen : acts₁.length = acts₂.length)
    (hargs : ∀ i (ha : i < acts₁.length) (hb : i < acts₂.length),
      (acts₁.get ⟨i, ha⟩).getKey "arguments" =
        (acts₂.get ⟨i, hb⟩).getKey "arguments") :
    extract_compile_commands j₁ = extract_compile_commands j₂ := by
  have hloop := extractLoop_congr acts₁ acts₂ hlen hargs
  simp [extract_compile_commands, h₁, h₂, Json.pyIter, hloop]

/-- Witness for C9 at two concrete documents differing only in extra fields. -/
theorem output_depends_only_on_arguments_witness :
    sampleDoc1.getKey "actions" =
      some (Json.arr [sampleActionA, sampleActionB]) ∧
    sampleDoc2.getKey "actions" =
      some (Json.arr [sampleActionA2, sampleActionB2]) ∧
    extract_compile_commands sampleDoc1 = extract_compile_commands sampleDoc2 := by
  have h := output_depends_only_on_arguments sampleDoc1 sampleDoc2
    [sampleActionA, sampleActionB] [sampleActionA2, sampleActionB2] rfl rfl rfl ?_
  · exact ⟨rfl, rfl, h⟩
  · intro i ha hb
    simp only [List.length_cons, List.length_nil] at ha
    interval_cases i
    · rfl
    · rfl

/-- A string ending in ".cc" ends in none of the other C or C++ source
extensions: any two suffixes of one string are comparable, and the concrete
extension lists are incomparable. -/
theorem endswith_cc_excludes (f : String) (h : pyEndswith f ".cc" = true) :
    pyEndswith f ".cpp" = false ∧ pyEndswith f ".c" = false ∧
    pyEndswith f ".cu" = false := by
  have hcc : ".cc".data <:+ f.data := by
    simpa [pyEndswith, List.isSuffixOf_iff_suffix] using h
  have hgen : ∀ s : String, ¬ (".cc".data <:+ s.data) → ¬ (s.data <:+ ".cc".data) →
      pyEndswith f s = false := by
    intro s h1 h2
    by_contra hx
    rw [Bool.not_eq_false] at hx
    have hs : s.data <:+ f.data := by
      simpa [pyEndswith, List.isSuffixOf_iff_suffix] using hx
    rcases List.suffix_or_suffix_of_suffix hcc hs with hh | hh
    · exact h1 hh
    · exact h2 hh
  exact ⟨hgen ".cpp" (by decide) (by decide), hgen ".c" (by decide) (by decide),
    hgen ".cu" (by decide) (by decide)⟩

/-- C10: when a command records a file, that file ends in ".cc", appears
among the emitted (filtered) arguments, is not a denylisted argument, and
ends in none of the other C or C++ source extensions. -/
theorem emitted_file_invariants (args_list : List String) (f : String)
    (h : (ClangTidyCommand.from_args_list args_list).file = some f) :
    pyEndswith f ".cc" = true ∧
    f ∈ (ClangTidyCommand.from_args_list args_list).arguments ∧
    f ∉ DISALLOWED_ARGS ∧
    pyEndswith f ".cpp" = false ∧
    pyEndswith f ".c" = false ∧
    pyEndswith f ".cu" = false := by
  rw [from_args_list_file_eq] at h
  have hmem := List.mem_of_getLast?_eq_some h
  rw [List.mem_filter] at hmem
  obtain ⟨hargs, hcand⟩ := hmem
  have hcand' := hcand
  simp only [fileCandidate, Bool.and_eq_true, keptArg, decide_eq_true_eq] at hcand'
  obtain ⟨hnotd, hcc⟩ := hcand'
  obtain ⟨hcpp, hc, hcu⟩ := endswith_cc_excludes f hcc
  refine ⟨hcc, ?_, hnotd, hcpp, hc, hcu⟩
  rw [from_args_list_arguments_eq]
  exact List.mem_filter.mpr ⟨hargs, by simp [keptArg, hnotd]⟩

/-- Witness for C10 at a concrete action recording a file. -/
theorem emitted_file_invariants_witness :
    (ClangTidyCommand.from_args_list ["clang", "foo.cc"]).file = some "foo.cc" ∧
    (pyEndswith "foo.cc" ".cc" = true ∧
      "foo.cc" ∈ (ClangTidyCommand.from_args_list ["clang", "foo.cc"]).arguments ∧
      "foo.cc" ∉ DISALLOWED_ARGS ∧
      pyEndswith "foo.cc" ".cpp" = false ∧
      pyEndswith "foo.cc" ".c" = false ∧
      pyEndswith "foo.cc" ".cu" = false) :=
  ⟨by decide, emitted_file_invariants ["clang", "foo.cc"] "foo.cc" (by decide)⟩

/-- C7: the dumped output is an array with one object per command, in the
same order; each object carries exactly the keys "directory", "file",
"arguments" in that order, with the shared directory string in every entry,
the recorded file (null when absent), and the filtered arguments as an array
of strings. -/
theorem dump_entry_shape (commands : List ClangTidyCommand) (directory : String) :
    (dump_compile_commands commands directory).arrLen = some commands.length ∧
    ∀ i (h : i < commands.length),
      ((dump_compile_commands commands directory).arrGet i).bind Json.objKeys =
        some ["directory", "file", "arguments"] ∧
      ((dump_compile_commands commands directory).arrGet i).bind
          (fun e => e.getKey "directory") = some (Json.str directory) ∧
      ((dump_compile_commands commands directory).arrGet i).bind
          (fun e => e.getKey "file") =
        some (optFileJson ((commands.get ⟨i, h⟩).file)) ∧
      ((dump_compile_commands commands directory).arrGet i).bind
          (fun e => e.getKey "arguments") =
        some (Json.arr (((commands.get ⟨i, h⟩).arguments).map Json.str)) := by
  refine ⟨by simp [dump_compile_commands, Json.arrLen], ?_⟩
  intro i h
  have hget : (dump_compile_commands commands directory).arrGet i =
      some ((commands.get ⟨i, h⟩).to_dumpable_json directory) := by
    simp [dump_compile_commands, Json.arrGet, List.getElem?_eq_getElem,
      List.getElem?_map, h]
  refine ⟨?_, ?_, ?_, ?_⟩ <;>
    simp [hget, ClangTidyCommand.to_dumpable_json, Json.objKeys, Json.getKey,
      List.lookup]

/-- Witness for C7 at a concrete one-command database. -/
theorem dump_entry_shape_witness :
    (0 : Nat) < 1 ∧
    (((dump_compile_commands [⟨some "a.cc", ["clang", "a.cc"]⟩] "/xla").arrGet 0).bind
        Json.objKeys = some ["directory", "file", "arguments"] ∧
      ((dump_compile_commands [⟨some "a.cc", ["clang", "a.cc"]⟩] "/xla").arrGet 0).bind
          (fun e => e.getKey "directory") = some (Json.str "/xla") ∧
      ((dump_compile_commands [⟨some "a.cc", ["clang", "a.cc"]⟩] "/xla").arrGet 0).bind
          (fun e => e.getKey "file") =
        some (optFileJson ((([⟨some "a.cc", ["clang", "a.cc"]⟩] :
          List ClangTidyCommand).get ⟨0, by decide⟩).file)) ∧
      ((dump_compile_commands [⟨some "a.cc", ["clang", "a.cc"]⟩] "/xla").arrGet 0).bind
          (fun e => e.getKey "arguments") =
        some (Json.arr (((([⟨some "a.cc", ["clang", "a.cc"]⟩] :
          List ClangTidyCommand).get ⟨0, by decide⟩).arguments).map Json.str))) :=
  ⟨by decide, (dump_entry_shape [⟨some "a.cc", ["clang", "a.cc"]⟩] "/xla").2 0 (by decide)⟩

/-- An optional bind is none exactly when the receiver is none or the
function fails on its value. -/
theorem optionBind_eq_none_cases {α β : Type} (o : Option α) (g : α → Option β) :
    o.bind g = none ↔ o = none ∨ ∃ v, o = some v ∧ g v = none := by
  cases o <;> simp

/-- String-list conversion fails exactly when some element is not a string. -/
theorem strListOfJson_eq_none_iff (l : List Json) :
    strListOfJson l = none ↔ ∃ e ∈ l, e.asStr = none := by
  induction l with
  | nil => simp [strListOfJson]
  | cons a rest ih =>
    cases ha : a.asStr with
    | none => simp [strListOfJson, ha]
    | some s => simp [strListOfJson, ha, Option.map_eq_none', ih]

/-- Converting an arguments value fails exactly when the value is not
iterable or some iterated element is not a string. -/
theorem from_args_json_eq_none_iff (v : Json) :
    from_args_json v = none ↔
      v.pyIter = none ∨
      ∃ elems, v.pyIter = some elems ∧ ∃ e ∈ elems, e.asStr = none := by
  cases hv : v.pyIter with
  | none => simp [from_args_json, hv]
  | some elems =>
    simp [from_args_json, hv, Option.map_eq_none', strListOfJson_eq_none_iff]

/-- The extraction loop fails exactly when some action fails to convert. -/
theorem extractLoop_eq_none_iff (acts : List Json) :
    extractLoop acts = none ↔
      ∃ a ∈ acts, (a.getKey "arguments").bind from_args_json = none := by
  induction acts with
  | nil => simp [extractLoop]
  | cons a rest ih =>
    cases hc : (a.getKey "arguments").bind from_args_json with
    | none =>
      constructor
      · intro _
        exact ⟨a, List.mem_cons_self a rest, hc⟩
      · intro _
        simp [extractLoop, hc]
    | some cmd =>
      constructor
      · intro hnone
        simp only [extractLoop, hc, Option.some_bind, Option.map_eq_none'] at hnone
        obtain ⟨b, hb, hbnone⟩ := ih.mp hnone
        exact ⟨b, List.mem_cons_of_mem a hb, hbnone⟩
      · rintro ⟨b, hb, hbnone⟩
        rcases List.mem_cons.mp hb with rfl | hbr
        · rw [hc] at hbnone
          exact absurd hbnone (by simp)
        · simp only [extractLoop, hc, Option.some_bind, Option.map_eq_none']
          exact ih.mpr ⟨b, hbr, hbnone⟩

/-- C6 amended: parsing fails (and then no output is produced), exactly when
the parsed document has no actions entry (in particular when it is not an
object), or the actions value is not iterable, or some iterated action has
no arguments entry (in particular when it is not an object), or some
action's arguments value is not iterable, or some iterated element of an
arguments value is not a string; a single offending action fails the whole
run. -/
theorem extract_failure_characterization (j : Json) :
    extract_compile_commands j = none ↔
      j.getKey "actions" = none ∨
      ∃ actions, j.getKey "actions" = some actions ∧
        (actions.pyIter = none ∨
          ∃ acts, actions.pyIter = some acts ∧
            ∃ a ∈ acts,
              (a.getKey "arguments" = none ∨
                ∃ v, a.getKey "arguments" = some v ∧
                  (v.pyIter = none ∨
                    ∃ elems, v.pyIter = some elems ∧
                      ∃ e ∈ elems, e.asStr = none))) := by
  cases hj : j.getKey "actions" with
  | none => simp [extract_compile_commands, hj]
  | some actions =>
    cases hi : actions.pyIter with
    | none => simp [extract_compile_commands, hj, hi]
    | some acts =>
      simp only [extract_compile_commands, hj, hi, Option.some_bind]
      rw [extractLoop_eq_none_iff]
      simp [optionBind_eq_none_cases, from_args_json_eq_none_iff, hj, hi,
        -Option.bind_eq_none]

/-- C6 counterexample: a document whose actions entry is present and holds a
sequence, and whose single action carries an arguments entry, still fails to
parse, because that arguments value (null) is not iterable; so missing
actions, non-sequence actions and missing arguments are not the only failure
causes. -/
theorem failure_beyond_listed_schema_defects :
    (Json.obj [("actions", Json.arr [Json.obj [("arguments", Json.null)]])]).getKey
        "actions" = some (Json.arr [Json.obj [("arguments", Json.null)]]) ∧
    (Json.obj [("arguments", Json.null)]).getKey "arguments" = some Json.null ∧
    extract_compile_commands
      (Json.obj [("actions", Json.arr [Json.obj [("arguments", Json.null)]])]) =
      none :=
  ⟨rfl, rfl, rfl⟩

end GenerateCompileCommands
